import Mathlib

/-!
Verification of the drx4-logs commit-message parsing and day-aggregation
pipeline (`src/src/index.ts` and the near-duplicate narrative variant
`src/unnamed/part_000`).

The TypeScript core is shallowly embedded below:

* the fixed regular expressions of `parseCommit` are hand-compiled to
  deterministic matchers on `List Char` (each pattern is backtracking-free
  because every greedy sub-pattern is followed by a character class disjoint
  from it, so maximal munch is exact);
* JS numbers produced by `parseInt` are modelled exactly as integers, except
  that `parseInt("")` (reachable when the balance pattern `[\d,]+` matches
  only commas) is modelled as `JSNum.nan`;
* `summarizeDay` is the same left-to-right accumulator loop, written as a
  `List.foldl`;
* `getDaySummaries` is the same day loop, parametrised over the impure
  environment: `dayKey i` stands for `daysAgo(i)` and `grouped` for
  `groupByDay(commits).get(date) || []`.
-/

namespace Drx4

/-- The character set of the JS `\s` class (also the set removed by
`String.prototype.trim`): ASCII whitespace plus the Unicode space
separators, NBSP, line/paragraph separators and the BOM. -/
def isJsSpace (c : Char) : Bool :=
  let n := c.toNat
  n == 0x20 || n == 0x09 || n == 0x0A || n == 0x0B || n == 0x0C || n == 0x0D ||
  n == 0xA0 || n == 0x1680 || (0x2000 ≤ n && n ≤ 0x200A) ||
  n == 0x2028 || n == 0x2029 || n == 0x202F || n == 0x205F || n == 0x3000 ||
  n == 0xFEFF

/-- The JS `\w` class `[A-Za-z0-9_]`, used by the `\b` word-boundary
assertion. -/
def isWordChar (c : Char) : Bool :=
  c.isAlpha || c.isDigit || c == '_'

/-- The JS character class `[\d,]` of the balance patterns. -/
def isDigitOrComma (c : Char) : Bool :=
  c.isDigit || c == ','

/-- Case-insensitive character comparison as performed by the `/i` flag on
the ASCII patterns of the source (non-Unicode mode canonicalisation is the
identity outside ASCII letters). -/
def lcEq (a b : Char) : Bool :=
  a.toLower == b.toLower

/-- Consume an exact literal at the head of the input; `some rest` on
success. -/
def eatLit : List Char → List Char → Option (List Char)
  | [], l => some l
  | _ :: _, [] => none
  | p :: ps, c :: cs => if c = p then eatLit ps cs else none

/-- Consume a literal at the head of the input, case-insensitively. -/
def eatLitCI : List Char → List Char → Option (List Char)
  | [], l => some l
  | _ :: _, [] => none
  | p :: ps, c :: cs => if lcEq c p then eatLitCI ps cs else none

/-- Decimal value of a digit string (the exact value of JS `parseInt` on a
nonempty all-digit string). -/
def digitsToNat (ds : List Char) : Nat :=
  ds.foldl (fun n c => n * 10 + (c.toNat - '0'.toNat)) 0

/-- A JS number as produced by the parser's `parseInt` calls: either an
exact integer or `NaN` (`parseInt("")`). -/
inductive JSNum where
  | nan : JSNum
  | int : Int → JSNum
deriving DecidableEq

/-- `parseInt` applied to a comma-stripped `[\d,]+` capture: `NaN` when no
digit remains, otherwise the decimal value. -/
def jsParseIntDigits (ds : List Char) : JSNum :=
  if ds.isEmpty then JSNum.nan else JSNum.int (digitsToNat ds)

/-- JS `trim`: drop `isJsSpace` characters from both ends. -/
def jsTrim (l : List Char) : List Char :=
  ((l.dropWhile isJsSpace).reverse.dropWhile isJsSpace).reverse

/-- JS `msg.split("\n")[0]`: the text up to the first newline. -/
def firstLine (l : List Char) : List Char :=
  l.takeWhile (fun c => c ≠ '\n')

/-- JS `body.split(",")`: split at every comma; the result is always
nonempty and empty fragments are kept. -/
def splitOnComma : List Char → List (List Char)
  | [] => [[]]
  | c :: cs =>
    if c = ',' then [] :: splitOnComma cs
    else
      match splitOnComma cs with
      | [] => [[c]]
      | s :: ss => (c :: s) :: ss

/-- The anchored prefix pattern `/^Cycle\s+(\d+)(?:-\d+)?:/` of
`parseCommit` (case-sensitive, matched against the whole message, so the
`\s+` may consume newlines). On success returns the captured cycle number
and the remainder of the message after the matched text. -/
def matchCycleTag (l : List Char) : Option (Nat × List Char) :=
  match eatLit ['C', 'y', 'c', 'l', 'e'] l with
  | none => none
  | some r1 =>
    if (r1.takeWhile isJsSpace).isEmpty then none
    else
      let r2 := r1.dropWhile isJsSpace
      let ds := r2.takeWhile Char.isDigit
      if ds.isEmpty then none
      else
        let r3 := r2.dropWhile Char.isDigit
        let r4 :=
          match r3 with
          | '-' :: rest =>
            if (rest.takeWhile Char.isDigit).isEmpty then r3
            else rest.dropWhile Char.isDigit
          | _ => r3
        match r4 with
        | ':' :: rest => some (digitsToNat ds, rest)
        | _ => none

/-- Whether the word `w` (all ASCII letters) occurs at the head of `l` with
a `\b` boundary on each side; `prev` is the character just before `l`, if
any. -/
def wordAt (w : List Char) (prev : Option Char) (l : List Char) : Bool :=
  match eatLitCI w l with
  | none => false
  | some rest =>
    (match prev with
     | none => true
     | some c => !isWordChar c) &&
    (match rest with
     | [] => true
     | c :: _ => !isWordChar c)

/-- Scan helper for `hasWord`: test the word at every suffix of `l`,
remembering the previous character. -/
def hasWordFrom (w : List Char) : Option Char → List Char → Bool
  | prev, [] => wordAt w prev []
  | prev, c :: cs => wordAt w prev (c :: cs) || hasWordFrom w (some c) cs

/-- `/\bw\b/i.test(l)`: the word occurs somewhere in `l`, case-insensitively
and word-boundary delimited. -/
def hasWord (w : List Char) (l : List Char) : Bool :=
  hasWordFrom w none l

/-- `/\b(fail|error|blocked)\b/i.test(l)`. -/
def hasAnyErrWord (l : List Char) : Bool :=
  hasWord ['f', 'a', 'i', 'l'] l ||
  hasWord ['e', 'r', 'r', 'o', 'r'] l ||
  hasWord ['b', 'l', 'o', 'c', 'k', 'e', 'd'] l

/-- One attempt of `/heartbeat\s+#(\d+)/i` at the head of `l`. -/
def matchHeartbeatAt (l : List Char) : Option Nat :=
  match eatLitCI ['h', 'e', 'a', 'r', 't', 'b', 'e', 'a', 't'] l with
  | none => none
  | some r1 =>
    if (r1.takeWhile isJsSpace).isEmpty then none
    else
      match r1.dropWhile isJsSpace with
      | '#' :: r2 =>
        let ds := r2.takeWhile Char.isDigit
        if ds.isEmpty then none else some (digitsToNat ds)
      | _ => none

/-- First (leftmost) match of `/heartbeat\s+#(\d+)/i` in `l`. -/
def scanHeartbeat : List Char → Option Nat
  | [] => matchHeartbeatAt []
  | c :: cs =>
    match matchHeartbeatAt (c :: cs) with
    | some v => some v
    | none => scanHeartbeat cs

/-- One attempt of `/balance\s+([\d,]+)\s*sats/i` at the head of `l`; on
success the capture is comma-stripped and fed to `parseInt`. -/
def matchBalanceAt (l : List Char) : Option JSNum :=
  match eatLitCI ['b', 'a', 'l', 'a', 'n', 'c', 'e'] l with
  | none => none
  | some r1 =>
    if (r1.takeWhile isJsSpace).isEmpty then none
    else
      let r2 := r1.dropWhile isJsSpace
      let ds := r2.takeWhile isDigitOrComma
      if ds.isEmpty then none
      else
        let r3 := (r2.dropWhile isDigitOrComma).dropWhile isJsSpace
        match eatLitCI ['s', 'a', 't', 's'] r3 with
        | some _ => some (jsParseIntDigits (ds.filter (fun c => c ≠ ',')))
        | none => none

/-- First match of `/balance\s+([\d,]+)\s*sats/i` in `l`. -/
def scanBalance : List Char → Option JSNum
  | [] => matchBalanceAt []
  | c :: cs =>
    match matchBalanceAt (c :: cs) with
    | some v => some v
    | none => scanBalance cs

/-- One attempt of `/\(([+-]\d[\d,]*)\)/` at the head of `l`; the signed
capture is comma-stripped and fed to `parseInt` (always at least one digit,
so never `NaN`). -/
def matchDeltaAt (l : List Char) : Option Int :=
  match l with
  | '(' :: s :: d :: r =>
    if (s = '+' ∨ s = '-') ∧ d.isDigit then
      let ds := r.takeWhile isDigitOrComma
      match r.dropWhile isDigitOrComma with
      | ')' :: _ =>
        let n : Int := digitsToNat ((d :: ds).filter (fun c => c ≠ ','))
        some (if s = '-' then -n else n)
      | _ => none
    else none
  | _ => none

/-- First match of `/\(([+-]\d[\d,]*)\)/` in `l`. -/
def scanDelta : List Char → Option Int
  | [] => matchDeltaAt []
  | c :: cs =>
    match matchDeltaAt (c :: cs) with
    | some v => some v
    | none => scanDelta cs

/-- `/^idle$/i.test(part)`. -/
def isIdleSeg (l : List Char) : Bool :=
  eatLitCI ['i', 'd', 'l', 'e'] l == some []

/-- `/^heartbeat\s+#\d+$/i.test(part)`. -/
def isHbSeg (l : List Char) : Bool :=
  match eatLitCI ['h', 'e', 'a', 'r', 't', 'b', 'e', 'a', 't'] l with
  | none => false
  | some r1 =>
    !(r1.takeWhile isJsSpace).isEmpty &&
    (match r1.dropWhile isJsSpace with
     | '#' :: r2 => !r2.isEmpty && r2.all Char.isDigit
     | _ => false)

/-- `/^balance\s+[\d,]+\s*sats(\s*\([+-][\d,]+\))?$/i.test(part)`. -/
def isBalSeg (l : List Char) : Bool :=
  match eatLitCI ['b', 'a', 'l', 'a', 'n', 'c', 'e'] l with
  | none => false
  | some r1 =>
    !(r1.takeWhile isJsSpace).isEmpty &&
    (let r2 := r1.dropWhile isJsSpace
     let ds := r2.takeWhile isDigitOrComma
     !ds.isEmpty &&
     (let r3 := (r2.dropWhile isDigitOrComma).dropWhile isJsSpace
      match eatLitCI ['s', 'a', 't', 's'] r3 with
      | none => false
      | some r4 =>
        r4.isEmpty ||
        (match r4.dropWhile isJsSpace with
         | '(' :: s :: r5 =>
           (s == '+' || s == '-') &&
           (let ds2 := r5.takeWhile isDigitOrComma
            !ds2.isEmpty &&
            (match r5.dropWhile isDigitOrComma with
             | [')'] => true
             | _ => false))
         | _ => false)))

/-- `/^GitHub clean$/i.test(part)`. -/
def isGithubCleanSeg (l : List Char) : Bool :=
  eatLitCI ['g', 'i', 't', 'h', 'u', 'b', ' ', 'c', 'l', 'e', 'a', 'n'] l == some []

/-- The four-way classification of the `CycleEntry.status` field. -/
inductive Status where
  | idle
  | active
  | error
  | manual
deriving DecidableEq

/-- The parser's output record (`CycleEntry` in the source). `message` holds
the first line of the raw message; `balance` can be `JSNum.nan`. -/
structure CycleEntry where
  cycle : Option Nat
  status : Status
  message : String
  timestamp : String
  heartbeat : Option Nat
  balance : Option JSNum
  balanceDelta : Option Int
  events : List String
deriving DecidableEq

/-- `parseCommit(msg, timestamp)` from the source: anchor-match the cycle
tag against the whole message; on failure return the manual record, on
success classify the status from the trimmed body and extract the optional
fields and residual events. -/
def parseCommit (msg : String) (timestamp : String) : CycleEntry :=
  let head := String.mk (firstLine msg.data)
  match matchCycleTag msg.data with
  | none =>
    { cycle := none, status := Status.manual, message := head,
      timestamp := timestamp, heartbeat := none, balance := none,
      balanceDelta := none, events := [head] }
  | some (n, rest) =>
    let body := jsTrim rest
    let status :=
      if hasWord ['i', 'd', 'l', 'e'] body then Status.idle
      else if hasAnyErrWord body then Status.error
      else Status.active
    let parts := (splitOnComma body).map jsTrim
    let events := parts.filterMap (fun p =>
      if isIdleSeg p then none
      else if isHbSeg p then none
      else if isBalSeg p then none
      else if isGithubCleanSeg p then none
      else if p.isEmpty then none
      else some (String.mk p))
    { cycle := some n, status := status, message := head,
      timestamp := timestamp, heartbeat := scanHeartbeat body,
      balance := scanBalance body, balanceDelta := scanDelta body,
      events := events }

/-- The per-day aggregate record (`DaySummary` in the source). -/
structure DaySummary where
  date : String
  cycles : List CycleEntry
  totalCycles : Nat
  activeCycles : Nat
  idleCycles : Nat
  errorCycles : Nat
  manualCommits : Nat
  balanceStart : Option JSNum
  balanceEnd : Option JSNum
  balanceDelta : Option JSNum
  heartbeatStart : Option Nat
  heartbeatEnd : Option Nat
  events : List String
deriving DecidableEq

/-- The mutable state of `summarizeDay`'s loop. -/
structure DayAcc where
  idleN : Nat
  activeN : Nat
  errorN : Nat
  manualN : Nat
  events : List String
  balanceStart : Option JSNum
  balanceEnd : Option JSNum
  heartbeatStart : Option Nat
  heartbeatEnd : Option Nat
deriving DecidableEq

/-- One iteration of `summarizeDay`'s `for` loop: bump the tally of the
record's status, append its events, and update the first/last observed
balance and heartbeat. -/
def stepDay (acc : DayAcc) (c : CycleEntry) : DayAcc :=
  { idleN := acc.idleN + (if c.status = Status.idle then 1 else 0),
    activeN := acc.activeN + (if c.status = Status.active then 1 else 0),
    errorN := acc.errorN + (if c.status = Status.error then 1 else 0),
    manualN := acc.manualN + (if c.status = Status.manual then 1 else 0),
    events := acc.events ++ c.events,
    balanceStart :=
      match c.balance, acc.balanceStart with
      | some b, none => some b
      | _, _ => acc.balanceStart,
    balanceEnd :=
      match c.balance with
      | some b => some b
      | none => acc.balanceEnd,
    heartbeatStart :=
      match c.heartbeat, acc.heartbeatStart with
      | some h, none => some h
      | _, _ => acc.heartbeatStart,
    heartbeatEnd :=
      match c.heartbeat with
      | some h => some h
      | none => acc.heartbeatEnd }

/-- JS subtraction on the parser's numbers (`NaN` propagates). -/
def JSNum.sub : JSNum → JSNum → JSNum
  | JSNum.int a, JSNum.int b => JSNum.int (a - b)
  | _, _ => JSNum.nan

/-- `summarizeDay(date, cycles)` from the source: a single left-to-right
pass over the records, then assembly of the summary record, with
`balanceDelta = balanceEnd - balanceStart` when both were observed. -/
def summarizeDay (date : String) (cycles : List CycleEntry) : DaySummary :=
  let a := cycles.foldl stepDay
    { idleN := 0, activeN := 0, errorN := 0, manualN := 0, events := [],
      balanceStart := none, balanceEnd := none,
      heartbeatStart := none, heartbeatEnd := none }
  { date := date, cycles := cycles,
    totalCycles := a.idleN + a.activeN + a.errorN,
    activeCycles := a.activeN, idleCycles := a.idleN, errorCycles := a.errorN,
    manualCommits := a.manualN,
    balanceStart := a.balanceStart, balanceEnd := a.balanceEnd,
    balanceDelta :=
      match a.balanceStart, a.balanceEnd with
      | some s, some e => some (JSNum.sub e s)
      | _, _ => none,
    heartbeatStart := a.heartbeatStart, heartbeatEnd := a.heartbeatEnd,
    events := a.events }

/-- The day loop of `getDaySummaries(n)`, parametrised over the impure
environment: `dayKey i` models `daysAgo(i)` (the UTC date key of `i` days
ago) and `grouped date` models `groupByDay(commits).get(date) || []`. For
`i` in `0..n-1` (most recent day first) the day is skipped when it has no
records and `i > 0`. -/
def getDaySummaries (n : Nat) (dayKey : Nat → String)
    (grouped : String → List CycleEntry) : List DaySummary :=
  (List.range n).filterMap (fun i =>
    let date := dayKey i
    let cycles := grouped date
    if cycles = [] ∧ 0 < i then none
    else some (summarizeDay date cycles))

/-! ### Narrative generation (`narrateDay` of the variant source file) -/

/-- `> 0` on a JS number (`NaN` compares false). -/
def JSNum.gtzB : JSNum → Bool
  | JSNum.int a => decide (0 < a)
  | JSNum.nan => false

/-- `< 0` on a JS number (`NaN` compares false). -/
def JSNum.ltzB : JSNum → Bool
  | JSNum.int a => decide (a < 0)
  | JSNum.nan => false

/-- `Math.abs` on a JS number. -/
def JSNum.jsAbs : JSNum → JSNum
  | JSNum.int a => JSNum.int a.natAbs
  | JSNum.nan => JSNum.nan

/-- Insert en-US thousands separators into a reversed digit list (`k` is the
number of digits already emitted). -/
def addCommasRev : List Char → Nat → List Char
  | [], _ => []
  | c :: cs, k =>
    if k ≠ 0 ∧ k % 3 = 0 then ',' :: c :: addCommasRev cs (k + 1)
    else c :: addCommasRev cs (k + 1)

/-- `Number.prototype.toLocaleString()` in the en-US locale, as used for all
balance figures: decimal digits with thousands commas, `"NaN"` for `NaN`. -/
def jsToLocale : JSNum → String
  | JSNum.nan => "NaN"
  | JSNum.int a =>
    (if a < 0 then "-" else "") ++
    String.mk ((addCommasRev (Nat.repr a.natAbs).data.reverse 0).reverse)

/-- The first sentence of `narrateDay` for a day with some activity: manual
actions only, mixed active/idle, no active cycles, or all active. -/
def summaryHead (day : DaySummary) : String :=
  if day.totalCycles = 0 ∧ 0 < day.manualCommits then
    toString day.manualCommits ++ " manual action" ++
      (if 1 < day.manualCommits then "s" else "") ++
      " logged (no autonomous cycles)."
  else if 0 < day.activeCycles ∧ 0 < day.idleCycles then
    "Ran " ++ toString day.totalCycles ++ " cycles &mdash; " ++
      toString day.activeCycles ++ " active, " ++
      toString day.idleCycles ++ " on standby."
  else if day.activeCycles = 0 then
    "Ran " ++ toString day.totalCycles ++
      " cycles, all on standby watching for messages and tasks."
  else
    "Ran " ++ toString day.totalCycles ++ " cycles, all active."

/-- The issue-count clause of `narrateDay`. -/
def errorClause (day : DaySummary) : Option String :=
  if 0 < day.errorCycles then
    some ("Hit " ++ toString day.errorCycles ++ " issue" ++
      (if 1 < day.errorCycles then "s" else "") ++ " (see details below).")
  else none

/-- The balance clause of `narrateDay`: growth, decline or steady. (In the
growth/decline branches the source dereferences `balanceEnd!`; when
`balanceEnd` is absent there the source would throw, modelled here by
formatting `NaN`.) -/
def balanceClause (day : DaySummary) : Option String :=
  match day.balanceDelta with
  | some d =>
    if d.gtzB then
      some ("Balance grew by " ++ jsToLocale d ++ " sats to " ++
        jsToLocale (day.balanceEnd.getD JSNum.nan) ++ " sats.")
    else if d.ltzB then
      some ("Spent " ++ jsToLocale d.jsAbs ++ " sats &mdash; balance now " ++
        jsToLocale (day.balanceEnd.getD JSNum.nan) ++ " sats.")
    else
      match day.balanceEnd with
      | some e => some ("Balance steady at " ++ jsToLocale e ++ " sats.")
      | none => none
  | none =>
    match day.balanceEnd with
    | some e => some ("Balance steady at " ++ jsToLocale e ++ " sats.")
    | none => none

/-- The heartbeat clause of `narrateDay` (source lines: `hbCount =
heartbeatEnd - heartbeatStart + 1`, plural when `hbCount > 1`, else the
fixed singular sentence). -/
def heartbeatClause (day : DaySummary) : Option String :=
  match day.heartbeatStart, day.heartbeatEnd with
  | some s, some e =>
    let hbCount : Int := (e : Int) - (s : Int) + 1
    if 1 < hbCount then
      some ("Sent " ++ toString hbCount ++ " heartbeats to AIBTC.")
    else
      some "Sent 1 heartbeat to AIBTC."
  | _, _ => none

/-- Order-preserving deduplication keeping first occurrences, with the set
of already seen values as an accumulator: the semantics of the source's
`[...new Set(day.events)]`. -/
def jsSetUniqueAux (seen : List String) : List String → List String
  | [] => []
  | x :: xs =>
    if x ∈ seen then jsSetUniqueAux seen xs
    else x :: jsSetUniqueAux (x :: seen) xs

/-- `[...new Set(l)]`: the elements of `l` in order of first occurrence. -/
def jsSetUnique (l : List String) : List String :=
  jsSetUniqueAux [] l

/-- The notable-events clause of `narrateDay`: deduplicate the day's events;
list all of them when at most 3 are unique, otherwise the first 3 followed
by the count of the remaining ones. -/
def eventsClause (day : DaySummary) : Option String :=
  if day.events = [] then none
  else
    let unique := jsSetUnique day.events
    if unique.length ≤ 3 then
      some ("Notable: " ++ String.intercalate ". " unique ++ ".")
    else
      some ("Notable: " ++ String.intercalate ". " (unique.take 3) ++
        ", and " ++ toString (unique.length - 3) ++ " more.")

/-- `Option` to singleton-or-empty list, for assembling the `parts` array of
`narrateDay`. -/
def optToList : Option String → List String
  | none => []
  | some s => [s]

/-- `narrateDay(day)` from the variant source file: the fixed no-activity
sentence, or the head sentence followed by the optional error, balance,
heartbeat and notable-events clauses, joined with single spaces. -/
def narrateDay (day : DaySummary) : String :=
  if day.totalCycles = 0 ∧ day.manualCommits = 0 then
    "No recorded activity this day."
  else
    String.intercalate " "
      ([summaryHead day] ++ optToList (errorClause day) ++
        optToList (balanceClause day) ++ optToList (heartbeatClause day) ++
        optToList (eventsClause day))

/-! ### Claims about the parser -/

/-- Claim C1: for every message `T` (with any timestamp `ts`) that does not
match the cycle-tag pattern anchored at the start, `parseCommit T ts`
returns the manual record: status `manual`, events the one-element list
holding the first line of `T`, and `cycle`, `heartbeat`, `balance` and
`balanceDelta` all absent. -/
theorem parseCommit_manual (msg ts : String)
    (h : matchCycleTag msg.data = none) :
    parseCommit msg ts =
      { cycle := none, status := Status.manual,
        message := String.mk (firstLine msg.data), timestamp := ts,
        heartbeat := none, balance := none, balanceDelta := none,
        events := [String.mk (firstLine msg.data)] } := by
  unfold parseCommit
  rw [h]

/-- Witness for C1 at the concrete non-cycle message
`"Fix typo\nsecond line"`. -/
theorem parseCommit_manual_witness :
    matchCycleTag ("Fix typo\nsecond line" : String).data = none ∧
    parseCommit "Fix typo\nsecond line" "2026-10-11T10:00:00Z" =
      { cycle := none, status := Status.manual, message := "Fix typo",
        timestamp := "2026-10-11T10:00:00Z", heartbeat := none,
        balance := none, balanceDelta := none, events := ["Fix typo"] } :=
  ⟨rfl, parseCommit_manual "Fix typo\nsecond line" "2026-10-11T10:00:00Z" rfl⟩

/-- Counterexample to claim C2 as stated: in `"Cycle\n7: idle"` the `\s+` of
the anchored pattern crosses the newline, so the whole message matches and
the status is not `manual`, although the headline (the first line,
`"Cycle"`) does not match the cycle-tag pattern. -/
theorem parseCommit_headline_cx :
    (parseCommit "Cycle\n7: idle" "t").status ≠ Status.manual ∧
    (parseCommit "Cycle\n7: idle" "t").cycle = some 7 ∧
    matchCycleTag (firstLine ("Cycle\n7: idle" : String).data) = none := by
  refine ⟨?_, by decide, by decide⟩
  decide

/-- Claim C2 (amended): for every message and timestamp, `cycle` is present
iff the status is not `manual`, and the status is `manual` iff the whole
message (not just its first line) did not match the anchored cycle-tag
pattern. -/
theorem parseCommit_cycle_iff (msg ts : String) :
    ((parseCommit msg ts).cycle ≠ none ↔
      (parseCommit msg ts).status ≠ Status.manual) ∧
    ((parseCommit msg ts).status = Status.manual ↔
      matchCycleTag msg.data = none) := by
  cases h : matchCycleTag msg.data with
  | none =>
    simp [parseCommit, h]
  | some p =>
    obtain ⟨n, rest⟩ := p
    simp only [parseCommit, h]
    have hst :
        (if hasWord ['i', 'd', 'l', 'e'] (jsTrim rest) = true then Status.idle
         else if hasAnyErrWord (jsTrim rest) = true then Status.error
         else Status.active) ≠ Status.manual := by
      split
      · simp
      · split <;> simp
    exact ⟨by simpa using hst, by simpa using hst⟩

/-- Claim C3: for every message whose text matches the cycle-tag pattern,
the status of the parsed record follows the fixed-precedence cascade over
the trimmed body: `idle` when the body contains the word "idle"; otherwise
`error` when it contains one of "fail", "error" or "blocked"; otherwise
`active`. In particular a body containing both "idle" and an error word is
classified `idle`. -/
theorem parseCommit_status_cascade (msg ts : String) (n : Nat)
    (rest : List Char) (h : matchCycleTag msg.data = some (n, rest)) :
    (hasWord ['i', 'd', 'l', 'e'] (jsTrim rest) = true →
      (parseCommit msg ts).status = Status.idle) ∧
    (hasWord ['i', 'd', 'l', 'e'] (jsTrim rest) = false →
      hasAnyErrWord (jsTrim rest) = true →
      (parseCommit msg ts).status = Status.error) ∧
    (hasWord ['i', 'd', 'l', 'e'] (jsTrim rest) = false →
      hasAnyErrWord (jsTrim rest) = false →
      (parseCommit msg ts).status = Status.active) ∧
    (hasWord ['i', 'd', 'l', 'e'] (jsTrim rest) = true →
      hasAnyErrWord (jsTrim rest) = true →
      (parseCommit msg ts).status = Status.idle) := by
  simp only [parseCommit, h]
  refine ⟨fun h1 => ?_, fun h1 h2 => ?_, fun h1 h2 => ?_, fun h1 _ => ?_⟩ <;>
    simp [h1, *]

/-- Witness for C3 at `"Cycle 1: idle and error"`: the body contains both
"idle" and the error word "error", and the parsed status is `idle`. -/
theorem parseCommit_status_cascade_witness :
    hasWord ['i', 'd', 'l', 'e'] (jsTrim (" idle and error" : String).data)
        = true ∧
    hasAnyErrWord (jsTrim (" idle and error" : String).data) = true ∧
    (parseCommit "Cycle 1: idle and error" "t").status = Status.idle :=
  ⟨by decide, by decide,
    (parseCommit_status_cascade "Cycle 1: idle and error" "t" 1
      (" idle and error" : String).data rfl).1 (by decide)⟩

/-- Claim C9: there is a cycle message whose parsed record has
`balanceDelta` present but `balance` absent — the parenthesised-delta
pattern matches independently of any balance field. -/
theorem parseCommit_delta_without_balance :
    ∃ (msg ts : String),
      (matchCycleTag msg.data).isSome = true ∧
      (parseCommit msg ts).balanceDelta = some (-100) ∧
      (parseCommit msg ts).balance = none :=
  ⟨"Cycle 3: paid out (-100)", "t", by decide, by decide, by decide⟩

/-- Counterexample to claim C4 as stated: in `"Cycle 1: balance , sats"` the
balance pattern `[\d,]+` matches the lone comma, comma-stripping leaves the
empty string, and `parseInt("")` is `NaN` — so `balance` is present but is
not a non-negative integer. -/
theorem parseCommit_balance_nan_cx :
    (parseCommit "Cycle 1: balance , sats" "t").balance = some JSNum.nan ∧
    ∀ k : Nat,
      (parseCommit "Cycle 1: balance , sats" "t").balance ≠
        some (JSNum.int (k : Int)) := by
  refine ⟨by decide, fun k h => ?_⟩
  rw [show (parseCommit "Cycle 1: balance , sats" "t").balance
      = some JSNum.nan from by decide] at h
  exact JSNum.noConfusion (Option.some.inj h)

/-- Every value produced by `jsParseIntDigits` is `NaN` or a non-negative
integer. -/
theorem jsParseIntDigits_shape (ds : List Char) :
    jsParseIntDigits ds = JSNum.nan ∨
    ∃ k : Nat, jsParseIntDigits ds = JSNum.int (k : Int) := by
  unfold jsParseIntDigits
  split
  · exact Or.inl rfl
  · exact Or.inr ⟨digitsToNat ds, rfl⟩

/-- Every balance extracted by one pattern attempt is `NaN` or a
non-negative integer. -/
theorem matchBalanceAt_shape (l : List Char) (v : JSNum)
    (h : matchBalanceAt l = some v) :
    v = JSNum.nan ∨ ∃ k : Nat, v = JSNum.int (k : Int) := by
  dsimp only [matchBalanceAt] at h
  repeat' split at h
  any_goals cases h
  exact jsParseIntDigits_shape _

/-- Every balance found by the scan is `NaN` or a non-negative integer. -/
theorem scanBalance_shape (l : List Char) (v : JSNum)
    (h : scanBalance l = some v) :
    v = JSNum.nan ∨ ∃ k : Nat, v = JSNum.int (k : Int) := by
  induction l with
  | nil =>
    rw [scanBalance] at h
    exact matchBalanceAt_shape _ _ h
  | cons c cs ih =>
    rw [scanBalance] at h
    cases hm : matchBalanceAt (c :: cs) with
    | some w =>
      rw [hm] at h
      exact (Option.some.inj h) ▸ matchBalanceAt_shape _ _ hm
    | none =>
      rw [hm] at h
      exact ih h

/-- Claim C4 (amended): whenever the `balance` field of a parsed record is
present it is either a non-negative integer (the comma-stripped digits of
the matched text) or `NaN` (when the matched `[\d,]+` text consists of
commas only). -/
theorem parseCommit_balance_shape (msg ts : String) (b : JSNum)
    (h : (parseCommit msg ts).balance = some b) :
    b = JSNum.nan ∨ ∃ k : Nat, b = JSNum.int (k : Int) := by
  unfold parseCommit at h
  cases hm : matchCycleTag msg.data with
  | none => rw [hm] at h; exact absurd h (by simp)
  | some p =>
    obtain ⟨n, rest⟩ := p
    rw [hm] at h
    exact scanBalance_shape _ _ h

/-- Witness for amended C4 at `"Cycle 7: balance 1,200 sats"`: the balance
is present and equals the non-negative integer 1200. -/
theorem parseCommit_balance_shape_witness :
    (parseCommit "Cycle 7: balance 1,200 sats" "t").balance
        = some (JSNum.int 1200) ∧
    (JSNum.int 1200 = JSNum.nan ∨
      ∃ k : Nat, JSNum.int 1200 = JSNum.int (k : Int)) :=
  ⟨by decide,
    parseCommit_balance_shape "Cycle 7: balance 1,200 sats" "t"
      (JSNum.int 1200) (by decide)⟩

/-! ### Claims about the day summarizer -/

/-- The status tallies accumulated by `summarizeDay`'s loop over any initial
accumulator are the per-status record counts. -/
theorem foldl_stepDay_tallies (cs : List CycleEntry) (a : DayAcc) :
    (cs.foldl stepDay a).idleN
        = a.idleN + cs.countP (fun c => decide (c.status = Status.idle)) ∧
    (cs.foldl stepDay a).activeN
        = a.activeN + cs.countP (fun c => decide (c.status = Status.active)) ∧
    (cs.foldl stepDay a).errorN
        = a.errorN + cs.countP (fun c => decide (c.status = Status.error)) ∧
    (cs.foldl stepDay a).manualN
        = a.manualN + cs.countP (fun c => decide (c.status = Status.manual)) := by
  induction cs generalizing a with
  | nil => simp
  | cons c cs ih =>
    obtain ⟨h1, h2, h3, h4⟩ := ih (stepDay a c)
    simp only [List.foldl_cons, List.countP_cons, h1, h2, h3, h4, stepDay]
    refine ⟨?_, ?_, ?_, ?_⟩ <;> (split <;> (simp_all; try omega))

/-- Counting the non-manual records splits into the three cycle statuses. -/
theorem countP_not_manual_split (cs : List CycleEntry) :
    cs.countP (fun c => decide (c.status ≠ Status.manual))
      = cs.countP (fun c => decide (c.status = Status.idle))
        + cs.countP (fun c => decide (c.status = Status.active))
        + cs.countP (fun c => decide (c.status = Status.error)) := by
  induction cs with
  | nil => simp
  | cons c cs ih =>
    simp only [List.countP_cons, ih]
    cases c.status <;> simp <;> omega

/-- Claim C5: for every date key and record list, `totalCycles` equals
`idleCycles + activeCycles + errorCycles`, `manualCommits` is the number of
manual records, and `totalCycles` counts exactly the non-manual records (so
manual commits contribute nothing to it). -/
theorem summarizeDay_counts (date : String) (cs : List CycleEntry) :
    (summarizeDay date cs).totalCycles
        = (summarizeDay date cs).idleCycles + (summarizeDay date cs).activeCycles
          + (summarizeDay date cs).errorCycles ∧
    (summarizeDay date cs).manualCommits
        = cs.countP (fun c => decide (c.status = Status.manual)) ∧
    (summarizeDay date cs).totalCycles
        = cs.countP (fun c => decide (c.status ≠ Status.manual)) := by
  obtain ⟨h1, h2, h3, h4⟩ := foldl_stepDay_tallies cs
    { idleN := 0, activeN := 0, errorN := 0, manualN := 0, events := [],
      balanceStart := none, balanceEnd := none,
      heartbeatStart := none, heartbeatEnd := none }
  refine ⟨rfl, ?_, ?_⟩
  · simpa using h4
  · show (cs.foldl stepDay _).idleN + (cs.foldl stepDay _).activeN
        + (cs.foldl stepDay _).errorN = _
    rw [h1, h2, h3, countP_not_manual_split]
    dsimp only
    omega

/-- The loop of `summarizeDay` keeps the start/end observation pairs in
lock-step: a start is recorded iff an end is. -/
theorem foldl_stepDay_someIff (cs : List CycleEntry) (a : DayAcc)
    (hb : a.balanceStart.isSome = a.balanceEnd.isSome)
    (hh : a.heartbeatStart.isSome = a.heartbeatEnd.isSome) :
    ((cs.foldl stepDay a).balanceStart.isSome
        = (cs.foldl stepDay a).balanceEnd.isSome) ∧
    ((cs.foldl stepDay a).heartbeatStart.isSome
        = (cs.foldl stepDay a).heartbeatEnd.isSome) := by
  induction cs generalizing a with
  | nil => exact ⟨hb, hh⟩
  | cons c cs ih =>
    rw [List.foldl_cons]
    refine ih (stepDay a c) ?_ ?_
    · simp only [stepDay]
      cases c.balance <;> cases hs : a.balanceStart <;>
        cases he : a.balanceEnd <;> simp_all
    · simp only [stepDay]
      cases c.heartbeat <;> cases hs : a.heartbeatStart <;>
        cases he : a.heartbeatEnd <;> simp_all

/-- Claim C10: in every `summarizeDay` output, `balanceStart` is present iff
`balanceEnd` is, `balanceDelta` is present iff `balanceStart` is, and
`heartbeatStart` is present iff `heartbeatEnd` is. -/
theorem summarizeDay_opt_pairs (date : String) (cs : List CycleEntry) :
    ((summarizeDay date cs).balanceStart.isSome
        ↔ (summarizeDay date cs).balanceEnd.isSome) ∧
    ((summarizeDay date cs).balanceDelta.isSome
        ↔ (summarizeDay date cs).balanceStart.isSome) ∧
    ((summarizeDay date cs).heartbeatStart.isSome
        ↔ (summarizeDay date cs).heartbeatEnd.isSome) := by
  obtain ⟨hb, hh⟩ := foldl_stepDay_someIff cs
    { idleN := 0, activeN := 0, errorN := 0, manualN := 0, events := [],
      balanceStart := none, balanceEnd := none,
      heartbeatStart := none, heartbeatEnd := none } rfl rfl
  simp only [summarizeDay]
  refine ⟨by rw [hb], ?_, by rw [hh]⟩
  cases hs : (cs.foldl stepDay _).balanceStart <;>
    cases he : (cs.foldl stepDay _).balanceEnd <;> simp_all

/-! ### Claims about the narrative generator -/

/-- Counterexample to claim C7 as stated: a day whose heartbeat numbers
decrease (here from 5 to 3, fully reachable through `parseCommit` and
`summarizeDay`) makes the clause report the fixed count 1, not
`heartbeatEnd - heartbeatStart + 1 = -1` with plural wording. -/
theorem heartbeatClause_cx :
    (summarizeDay "2026-10-11"
        [parseCommit "Cycle 1: heartbeat #5" "t1",
         parseCommit "Cycle 2: heartbeat #3" "t2"]).heartbeatStart = some 5 ∧
    (summarizeDay "2026-10-11"
        [parseCommit "Cycle 1: heartbeat #5" "t1",
         parseCommit "Cycle 2: heartbeat #3" "t2"]).heartbeatEnd = some 3 ∧
    heartbeatClause (summarizeDay "2026-10-11"
        [parseCommit "Cycle 1: heartbeat #5" "t1",
         parseCommit "Cycle 2: heartbeat #3" "t2"])
      = some "Sent 1 heartbeat to AIBTC." ∧
    (3 : Int) - (5 : Int) + 1 ≠ 1 ∧
    heartbeatClause (summarizeDay "2026-10-11"
        [parseCommit "Cycle 1: heartbeat #5" "t1",
         parseCommit "Cycle 2: heartbeat #3" "t2"])
      ≠ some ("Sent " ++ toString ((3 : Int) - (5 : Int) + 1) ++
          " heartbeats to AIBTC.") :=
  ⟨by decide, by decide, by decide, by decide, by decide⟩

/-- Claim C7 (amended): for every day summary with both heartbeat endpoints
present and `heartbeatStart ≤ heartbeatEnd`, the heartbeat clause reports
the count `heartbeatEnd - heartbeatStart + 1`, with the singular sentence
exactly when the count is 1 and the plural sentence otherwise. -/
theorem heartbeatClause_spec (day : DaySummary) (s e : Nat)
    (hs : day.heartbeatStart = some s) (he : day.heartbeatEnd = some e)
    (hle : s ≤ e) :
    ((e : Int) - (s : Int) + 1 = 1 →
      heartbeatClause day = some "Sent 1 heartbeat to AIBTC.") ∧
    ((e : Int) - (s : Int) + 1 ≠ 1 →
      heartbeatClause day
        = some ("Sent " ++ toString ((e : Int) - (s : Int) + 1) ++
            " heartbeats to AIBTC.")) := by
  simp only [heartbeatClause, hs, he]
  constructor
  · intro h1
    rw [if_neg (by omega)]
  · intro h1
    rw [if_pos (by omega)]

/-- Witness for amended C7: a day with a single heartbeat observation (start
and end both 9) yields the singular sentence. -/
theorem heartbeatClause_spec_witness :
    heartbeatClause (summarizeDay "2026-10-11"
        [parseCommit "Cycle 5: heartbeat #9" "t"])
      = some "Sent 1 heartbeat to AIBTC." :=
  (heartbeatClause_spec (summarizeDay "2026-10-11"
      [parseCommit "Cycle 5: heartbeat #9" "t"]) 9 9
    (by decide) (by decide) (by decide)).1 (by decide)

/-- A reachable day summary whose flattened events are
`["a", "b", "a", "c", "d"]`. -/
def sampleEventsDay : DaySummary :=
  summarizeDay "2026-10-11"
    [parseCommit "Cycle 1: a, b, a" "t1", parseCommit "Cycle 2: c, d" "t2"]

/-- Membership in the deduplicated list: present iff present in the input
and not already seen. -/
theorem mem_jsSetUniqueAux (l : List String) (seen : List String)
    (x : String) :
    x ∈ jsSetUniqueAux seen l ↔ x ∈ l ∧ x ∉ seen := by
  induction l generalizing seen with
  | nil => simp [jsSetUniqueAux]
  | cons y ys ih =>
    simp only [jsSetUniqueAux]
    split
    · rename_i hy
      rw [ih]
      simp only [List.mem_cons]
      constructor
      · rintro ⟨h1, h2⟩
        exact ⟨Or.inr h1, h2⟩
      · rintro ⟨h1 | h1, h2⟩
        · exact absurd (h1 ▸ hy) h2
        · exact ⟨h1, h2⟩
    · rename_i hy
      simp only [List.mem_cons, ih, List.mem_cons]
      constructor
      · rintro (rfl | ⟨h1, h2⟩)
        · exact ⟨Or.inl rfl, hy⟩
        · exact ⟨Or.inr h1, fun hx => h2 (Or.inr hx)⟩
      · rintro ⟨rfl | h1, h2⟩
        · exact Or.inl rfl
        · rcases eq_or_ne x y with rfl | hxy
          · exact Or.inl rfl
          · exact Or.inr ⟨h1, fun hx => h2 (hx.resolve_left hxy)⟩

/-- The deduplicated list has no duplicates. -/
theorem nodup_jsSetUniqueAux (l : List String) (seen : List String) :
    (jsSetUniqueAux seen l).Nodup := by
  induction l generalizing seen with
  | nil => simp [jsSetUniqueAux]
  | cons y ys ih =>
    simp only [jsSetUniqueAux]
    split
    · exact ih seen
    · rw [List.nodup_cons]
      refine ⟨fun hmem => ?_, ih (y :: seen)⟩
      exact ((mem_jsSetUniqueAux ys (y :: seen) y).mp hmem).2
        (List.mem_cons_self y seen)

/-- The deduplicated list is a sublist of the input (order preserved). -/
theorem sublist_jsSetUniqueAux (l : List String) (seen : List String) :
    (jsSetUniqueAux seen l).Sublist l := by
  induction l generalizing seen with
  | nil => simp [jsSetUniqueAux]
  | cons y ys ih =>
    simp only [jsSetUniqueAux]
    split
    · exact (ih seen).cons y
    · exact (ih (y :: seen)).cons₂ y

/-- Claim C8: the notable-events clause deduplicates the day's flattened
events order-preservingly keeping first occurrences (the result is a
duplicate-free sublist with the same members); with at most 3 unique events
it lists all of them, otherwise the first 3 followed by "and N more" where
N is the remaining unique count; and for the events
`["a", "b", "a", "c", "d"]` the unique list is `["a", "b", "c", "d"]` and
the clause is "Notable: a. b. c, and 1 more." -/
theorem eventsClause_spec :
    (∀ l : List String, (jsSetUnique l).Nodup) ∧
    (∀ l : List String, (jsSetUnique l).Sublist l) ∧
    (∀ (l : List String) (x : String), x ∈ jsSetUnique l ↔ x ∈ l) ∧
    (∀ day : DaySummary, day.events ≠ [] →
      (jsSetUnique day.events).length ≤ 3 →
      eventsClause day
        = some ("Notable: "
            ++ String.intercalate ". " (jsSetUnique day.events) ++ ".")) ∧
    (∀ day : DaySummary, day.events ≠ [] →
      3 < (jsSetUnique day.events).length →
      eventsClause day
        = some ("Notable: "
            ++ String.intercalate ". " ((jsSetUnique day.events).take 3)
            ++ ", and " ++ toString ((jsSetUnique day.events).length - 3)
            ++ " more.")) ∧
    sampleEventsDay.events = ["a", "b", "a", "c", "d"] ∧
    jsSetUnique sampleEventsDay.events = ["a", "b", "c", "d"] ∧
    eventsClause sampleEventsDay = some "Notable: a. b. c, and 1 more." := by
  refine ⟨fun l => nodup_jsSetUniqueAux l [],
    fun l => sublist_jsSetUniqueAux l [],
    fun l x => by simpa using mem_jsSetUniqueAux l [] x,
    fun day h1 h2 => ?_, fun day h1 h2 => ?_,
    by decide, by decide, by decide⟩
  · rw [eventsClause, if_neg h1, if_pos h2]
  · rw [eventsClause, if_neg h1, if_neg (by omega)]

/-- Witness for C8 at a reachable two-event day: both events are unique and
at most 3, so all are listed. -/
theorem eventsClause_spec_witness :
    eventsClause (summarizeDay "2026-10-11"
        [parseCommit "Cycle 1: x, y" "t"]) = some "Notable: x. y." :=
  eventsClause_spec.2.2.2.1
    (summarizeDay "2026-10-11" [parseCommit "Cycle 1: x, y" "t"])
    (by decide) (by decide)

/-! ### Claim about the day loop -/

/-- Lexicographic order on character lists (on `YYYY-MM-DD` date keys this
is chronological order). -/
def charListLt : List Char → List Char → Bool
  | [], [] => false
  | [], _ :: _ => true
  | _ :: _, [] => false
  | a :: as, b :: bs =>
    if a < b then true
    else if b < a then false
    else charListLt as bs

/-- Lexicographic order on strings, used to compare date keys. -/
def strLt (a b : String) : Bool :=
  charListLt a.data b.data

/-- The date of a day summary is the date it was built from. -/
theorem summarizeDay_date (d : String) (cs : List CycleEntry) :
    (summarizeDay d cs).date = d := rfl

/-- `filterMap` maps a pairwise relation on the input, restricted to the
mapped values, to a pairwise relation on the output. -/
theorem pairwise_filterMap_of {α β : Type} {R : β → β → Prop}
    {S : α → α → Prop} (f : α → Option β) :
    ∀ {l : List α}, l.Pairwise S →
      (∀ a ∈ l, ∀ b ∈ l, S a b →
        ∀ x, f a = some x → ∀ y, f b = some y → R x y) →
      (l.filterMap f).Pairwise R := by
  intro l
  induction l with
  | nil => intro _ _; simp
  | cons a t ih =>
    intro hp hf
    rcases hp with - | ⟨ha, ht⟩
    rw [List.filterMap_cons]
    cases hfa : f a with
    | none =>
      exact ih ht fun b hb c hc hs => hf b (List.mem_cons_of_mem _ hb)
        c (List.mem_cons_of_mem _ hc) hs
    | some x =>
      rw [List.pairwise_cons]
      constructor
      · intro y hy
        obtain ⟨b, hb, hfb⟩ := List.mem_filterMap.mp hy
        exact hf a (List.mem_cons_self a t) b (List.mem_cons_of_mem _ hb)
          (ha b hb) x hfa y hfb
      · exact ih ht fun b hb c hc hs => hf b (List.mem_cons_of_mem _ hb)
          c (List.mem_cons_of_mem _ hc) hs

/-- Every summary produced by the day loop is the summary of the day at
some index `i < n` that was not skipped. -/
theorem getDaySummaries_mem (n : Nat) (dayKey : Nat → String)
    (grouped : String → List CycleEntry) (s : DaySummary)
    (hs : s ∈ getDaySummaries n dayKey grouped) :
    ∃ i : Nat, i < n ∧ ¬(grouped (dayKey i) = [] ∧ 0 < i) ∧
      s = summarizeDay (dayKey i) (grouped (dayKey i)) := by
  obtain ⟨i, hir, hfi⟩ := List.mem_filterMap.mp hs
  dsimp only at hfi
  by_cases hc : grouped (dayKey i) = [] ∧ 0 < i
  · rw [if_pos hc] at hfi
    cases hfi
  · rw [if_neg hc] at hfi
    exact ⟨i, List.mem_range.mp hir, hc, (Option.some.inj hfi).symm⟩

/-- Claim C6: with `dayKey` modelling `daysAgo` (strictly decreasing and
injective date keys over the requested range) and a positive requested day
count `n`, the day loop returns summaries in most-recent-day-first order;
every day at index `i > 0` with no records is omitted; the most recent day
(index 0) is always first, even with no records, in which case its summary
has all counts zero, no events, and every optional field absent. -/
theorem getDaySummaries_spec (n : Nat) (dayKey : Nat → String)
    (grouped : String → List CycleEntry)
    (hn : 0 < n)
    (hord : ∀ i j : Nat, i < j → j < n → strLt (dayKey j) (dayKey i) = true)
    (hinj : ∀ i j : Nat, i < n → j < n → dayKey i = dayKey j → i = j) :
    List.Chain' (fun a b => strLt b.date a.date = true)
      (getDaySummaries n dayKey grouped) ∧
    (∀ i : Nat, 0 < i → i < n → grouped (dayKey i) = [] →
      ∀ s ∈ getDaySummaries n dayKey grouped, s.date ≠ dayKey i) ∧
    (getDaySummaries n dayKey grouped).head?
        = some (summarizeDay (dayKey 0) (grouped (dayKey 0))) ∧
    (grouped (dayKey 0) = [] →
      (getDaySummaries n dayKey grouped).head?
        = some
            { date := dayKey 0, cycles := [], totalCycles := 0,
              activeCycles := 0, idleCycles := 0, errorCycles := 0,
              manualCommits := 0, balanceStart := none, balanceEnd := none,
              balanceDelta := none, heartbeatStart := none,
              heartbeatEnd := none, events := [] }) := by
  have hhead : (getDaySummaries n dayKey grouped).head?
      = some (summarizeDay (dayKey 0) (grouped (dayKey 0))) := by
    obtain ⟨m, rfl⟩ : ∃ m, n = m + 1 := ⟨n - 1, by omega⟩
    rw [getDaySummaries, List.range_succ_eq_map, List.filterMap_cons]
    simp
  refine ⟨?_, ?_, hhead, fun hed => ?_⟩
  · apply List.Pairwise.chain'
    apply pairwise_filterMap_of _ (List.pairwise_lt_range n)
    intro a har b hbr hab x hx y hy
    have hbn : b < n := List.mem_range.mp hbr
    dsimp only at hx hy
    have hxd : x.date = dayKey a := by
      by_cases hc : grouped (dayKey a) = [] ∧ 0 < a
      · rw [if_pos hc] at hx; cases hx
      · rw [if_neg hc] at hx
        rw [← Option.some.inj hx, summarizeDay_date]
    have hyd : y.date = dayKey b := by
      by_cases hc : grouped (dayKey b) = [] ∧ 0 < b
      · rw [if_pos hc] at hy; cases hy
      · rw [if_neg hc] at hy
        rw [← Option.some.inj hy, summarizeDay_date]
    rw [hxd, hyd]
    exact hord a b hab hbn
  · intro i hi0 hin hemp s hs hdate
    obtain ⟨j, hjn, hjc, rfl⟩ := getDaySummaries_mem n dayKey grouped s hs
    rw [summarizeDay_date] at hdate
    have hji : j = i := hinj j i hjn hin hdate
    subst hji
    exact hjc ⟨hemp, hi0⟩
  · rw [hhead, hed]
    rfl

/-- A concrete two-day environment for the C6 witness: day keys for "today"
and "yesterday", and no records at all. -/
def wKey : Nat → String := fun i => if i = 0 then "2026-10-12" else "2026-10-11"

/-- The empty grouped-records environment for the C6 witness. -/
def wGrouped : String → List CycleEntry := fun _ => []

/-- Witness for C6 with `n = 2`, the two concrete date keys of `wKey` and no
records: the output is ordered, omits the empty older day, and starts with
the empty summary of the most recent day. -/
theorem getDaySummaries_spec_witness :
    List.Chain' (fun a b => strLt b.date a.date = true)
      (getDaySummaries 2 wKey wGrouped) ∧
    (∀ i : Nat, 0 < i → i < 2 → wGrouped (wKey i) = [] →
      ∀ s ∈ getDaySummaries 2 wKey wGrouped, s.date ≠ wKey i) ∧
    (getDaySummaries 2 wKey wGrouped).head?
        = some (summarizeDay (wKey 0) (wGrouped (wKey 0))) ∧
    (wGrouped (wKey 0) = [] →
      (getDaySummaries 2 wKey wGrouped).head?
        = some
            { date := wKey 0, cycles := [], totalCycles := 0,
              activeCycles := 0, idleCycles := 0, errorCycles := 0,
              manualCommits := 0, balanceStart := none, balanceEnd := none,
              balanceDelta := none, heartbeatStart := none,
              heartbeatEnd := none, events := [] }) := by
  apply getDaySummaries_spec 2 wKey wGrouped (by decide)
  · intro i j h1 h2
    have hj : j = 1 := by omega
    have hi : i = 0 := by omega
    subst hj; subst hi
    decide
  · intro i j hi hj heq
    have hi2 : i = 0 ∨ i = 1 := by omega
    have hj2 : j = 0 ∨ j = 1 := by omega
    rcases hi2 with rfl | rfl <;> rcases hj2 with rfl | rfl <;>
      first
        | rfl
        | exact absurd heq (by decide)

end Drx4
